import Mathlib

/-!
# myutils: the instrumented HTTP helper (`http.go`, `items.go`)

A shallow embedding of `HttpClient`, `Utils.Get` and `Utils.Post`.

* Go pointers (`*http.Client`, `*http.Request`, `*http.Response`) are `Option`s: `none` is `nil`.
* `time.Duration` is an `Int` count of nanoseconds; arithmetic wraps to the int64 range.
* The standard library and the network are a `World`: the outcome of `url.Parse`, of
  `Client.Do`, of reading the body and of the clock are inputs of the model.
* A run of `Get`/`Post` yields the log lines written so far and either the four results or
  a run-time panic (nil pointer dereference).
-/

set_option autoImplicit false

namespace Myutils

/-! ## Durations (`time.Duration` is an int64 count of nanoseconds) -/

/-- Two-complement reduction of an integer to the int64 range `[-2^63, 2^63)`. -/
def wrapInt64 (x : Int) : Int := (x + 9223372036854775808) % 18446744073709551616 - 9223372036854775808

/-- The constant `time.Second`, in nanoseconds. -/
def Second : Int := 1000000000

/-- Go multiplication of two `time.Duration` values: the int64 product. -/
def durMul (a b : Int) : Int := wrapInt64 (a * b)

/-! ## `items.go` -/

/-- The struct `PHttp` of `items.go`. -/
structure PHttp where
  Timeout : Int
  KeepAlive : Int
  IsDisableKeepAlive : Bool
  deriving DecidableEq, Repr

/-! ## `HttpClient` -/

/-- The values a `Transport.Proxy` field takes in this package. -/
inductive ProxyFunc where
  | ProxyFromEnvironment
  deriving DecidableEq, Repr

/-- The fields of `net.Dialer` that `HttpClient` sets. -/
structure Dialer where
  Timeout : Int
  KeepAlive : Int
  deriving DecidableEq, Repr

/-- The field of `tls.Config` that `HttpClient` sets. -/
structure TLSConfig where
  InsecureSkipVerify : Bool
  deriving DecidableEq, Repr

/-- The fields of `http.Transport` that `HttpClient` sets, and `DisableCompression`, which
it leaves at its zero value; `Dial` holds the dialer whose `Dial` method is installed. -/
structure Transport where
  Proxy : Option ProxyFunc
  Dial : Option Dialer
  TLSHandshakeTimeout : Int
  TLSClientConfig : Option TLSConfig
  DisableKeepAlives : Bool
  DisableCompression : Bool
  deriving DecidableEq, Repr

/-- The fields of `http.Client` that `HttpClient` sets. -/
structure Client where
  Transport : Option Transport
  Timeout : Int
  deriving DecidableEq, Repr

/-- `HttpClient` (http.go 28-49): builds the transport and the client and returns the
address of the client. -/
def HttpClient (p : PHttp) : Option Client :=
  let transport : Transport :=
    { Proxy := some ProxyFunc.ProxyFromEnvironment
      Dial := some { Timeout := durMul 1 Second, KeepAlive := durMul p.KeepAlive Second }
      TLSHandshakeTimeout := durMul 10 Second
      TLSClientConfig := some { InsecureSkipVerify := true }
      DisableKeepAlives := p.IsDisableKeepAlive
      -- not named in the composite literal of lines 31-41: the zero value
      DisableCompression := false }
  let client : Client :=
    { Transport := some transport
      Timeout := durMul p.Timeout Second }
  some client

/-! ## `float64` arithmetic on non-negative values

`Duration.Seconds` is `float64(sec) + float64(nsec)/1e9`.  A non-negative finite float64 is
a dyadic rational `num / 2^scale`; every operation is the exact result rounded to 53
significant bits, ties to even (IEEE 754 binary64, round-to-nearest-even). -/

/-- Nearest integer to `n / d`, ties to the even neighbour. -/
def roundHalfEven (n d : Nat) : Nat :=
  let q := n / d
  let r := n % d
  if 2 * r < d then q else if d < 2 * r then q + 1 else if q % 2 = 0 then q else q + 1

/-- Number of binary digits of `n`, by halving; `fuel` bounds the number of halvings. -/
def bitLenAux : Nat → Nat → Nat
  | 0, _ => 0
  | fuel + 1, n => if n = 0 then 0 else bitLenAux fuel (n / 2) + 1

/-- Number of binary digits of `n` (`0` for `0`). -/
def bitLen (n : Nat) : Nat := bitLenAux n n

/-- The binary exponent of `n / d`: the `e` with `2^e ≤ n/d < 2^(e+1)`, for `n, d > 0`. -/
def floorLog2 (n d : Nat) : Int :=
  let t : Int := (bitLen n : Int) - (bitLen d : Int)
  if d * 2 ^ t.toNat ≤ n * 2 ^ (-t).toNat then t else t - 1

/-- A non-negative finite float64 value, `num / 2^scale`. -/
structure Float64 where
  num : Nat
  scale : Nat
  deriving DecidableEq, Repr

/-- The float64 nearest to `n / d` (ties to even): 53 significant bits at the exponent of
`n / d`, and the subnormal spacing `2^-1074` below `2^-1022`. -/
def roundFloat64 (n d : Nat) : Float64 :=
  if n = 0 then ⟨0, 0⟩ else
    let e : Int := max (floorLog2 n d) (-1022)
    let k : Nat := (52 - e).toNat
    let j : Nat := (e - 52).toNat
    ⟨roundHalfEven (n * 2 ^ k) (d * 2 ^ j) * 2 ^ j, k⟩

/-- The conversion `float64(n)` of a non-negative integer. -/
def Float64.ofNat (n : Nat) : Float64 := roundFloat64 n 1

/-- The float64 quotient `x / y`. -/
def Float64.div (x y : Float64) : Float64 :=
  roundFloat64 (x.num * 2 ^ y.scale) (y.num * 2 ^ x.scale)

/-- The float64 sum `x + y`. -/
def Float64.add (x y : Float64) : Float64 :=
  roundFloat64 (x.num * 2 ^ y.scale + y.num * 2 ^ x.scale) (2 ^ (x.scale + y.scale))

/-- `Duration.Seconds` of the `time` package, for a non-negative duration `d` in
nanoseconds: `sec := d / Second; nsec := d % Second; float64(sec) + float64(nsec)/1e9`. -/
def Seconds (d : Nat) : Float64 :=
  let sec := d / 1000000000
  let nsec := d % 1000000000
  Float64.add (Float64.ofNat sec) (Float64.div (Float64.ofNat nsec) (Float64.ofNat 1000000000))

/-- `Duration.Milliseconds` of the `time` package: `int64(d) / 1e6`, for `d ≥ 0`. -/
def Milliseconds (d : Nat) : Nat := d / 1000000

/-! ## Text formatting (`strconv.FormatInt(_, 10)` and the verb `%f`) -/

/-- Decimal digits of `n`, most significant first; `fuel` bounds the number of divisions. -/
def decimalAux : Nat → Nat → List Char
  | 0, _ => []
  | fuel + 1, n =>
    if n < 10 then [Nat.digitChar n] else decimalAux fuel (n / 10) ++ [Nat.digitChar (n % 10)]

/-- The base-10 digits of a non-negative integer. -/
def decimal (n : Nat) : List Char := decimalAux (n + 1) n

/-- `strconv.FormatInt(n, 10)` for `n ≥ 0`. -/
def FormatInt (n : Nat) : String := String.mk (decimal n)

/-- The value `x` in millionths, rounded to the nearest millionth (ties to even): the
digits that `%f` prints are those of this integer. -/
def fixed6Micros (x : Float64) : Nat := roundHalfEven (x.num * 1000000) (2 ^ x.scale)

/-- The six fractional digits of `%f`. -/
def sixDigits (n : Nat) : List Char :=
  [Nat.digitChar (n / 100000 % 10), Nat.digitChar (n / 10000 % 10), Nat.digitChar (n / 1000 % 10),
   Nat.digitChar (n / 100 % 10), Nat.digitChar (n / 10 % 10), Nat.digitChar (n % 10)]

/-- The text `fmt.Sprintf("%f", x)` for a non-negative finite `x`: integer part, a point,
six decimals. -/
def SprintfF (x : Float64) : String :=
  String.mk (decimal (fixed6Micros x / 1000000) ++ '.' :: sixDigits (fixed6Micros x % 1000000))

/-- Reads a run of decimal digits as a number. -/
def readDigits (cs : List Char) : Nat :=
  cs.foldl (fun acc c => 10 * acc + (c.toNat - 48)) 0

/-- The number written in an integer text. -/
def readInt (s : String) : ℚ := (readDigits s.data : ℚ)

/-- The number written in a fixed-point text: the digits before the point, plus the digits
after it scaled by their count. -/
def readFixed (s : String) : ℚ :=
  let ip := s.data.takeWhile (fun c => c != '.')
  let fp := (s.data.dropWhile (fun c => c != '.')).drop 1
  (readDigits ip : ℚ) + (readDigits fp : ℚ) / 10 ^ fp.length

/-! ## The world outside the package -/

/-- A Go `error` value: its `Error()` text and its `%#v` rendering. -/
structure GoError where
  text : String
  goSyntax : String
  deriving DecidableEq, Repr

/-- A byte sequence (`[]byte`). -/
abbrev Bytes := List (Fin 256)

/-- Whether `b` is a UTF-8 continuation byte, `0x80`-`0xBF`. -/
def isCont (b : Fin 256) : Bool := 128 ≤ b.val && b.val ≤ 191

/-- The characters a byte sequence spells in UTF-8, by the table of package `unicode/utf8`
(shortest forms only, no surrogates, at most `U+10FFFF`); a byte that starts no
well-formed sequence is shown as `U+FFFD`, since a Lean string cannot hold it. -/
def utf8Chars : List (Fin 256) → List Char
  | [] => []
  | [b0] => [if b0.val < 128 then Char.ofNat b0.val else Char.ofNat 65533]
  | [b0, b1] =>
    if b0.val < 128 then Char.ofNat b0.val :: utf8Chars [b1]
    else if 194 ≤ b0.val && b0.val ≤ 223 && isCont b1 then
      [Char.ofNat ((b0.val - 192) * 64 + (b1.val - 128))]
    else Char.ofNat 65533 :: utf8Chars [b1]
  | [b0, b1, b2] =>
    if b0.val < 128 then Char.ofNat b0.val :: utf8Chars [b1, b2]
    else if 194 ≤ b0.val && b0.val ≤ 223 && isCont b1 then
      Char.ofNat ((b0.val - 192) * 64 + (b1.val - 128)) :: utf8Chars [b2]
    else if 224 ≤ b0.val && b0.val ≤ 239 && isCont b1 && isCont b2 &&
        (b0.val != 224 || 160 ≤ b1.val) && (b0.val != 237 || b1.val ≤ 159) then
      [Char.ofNat ((b0.val - 224) * 4096 + (b1.val - 128) * 64 + (b2.val - 128))]
    else Char.ofNat 65533 :: utf8Chars [b1, b2]
  | b0 :: b1 :: b2 :: b3 :: rest =>
    if b0.val < 128 then Char.ofNat b0.val :: utf8Chars (b1 :: b2 :: b3 :: rest)
    else if 194 ≤ b0.val && b0.val ≤ 223 && isCont b1 then
      Char.ofNat ((b0.val - 192) * 64 + (b1.val - 128)) :: utf8Chars (b2 :: b3 :: rest)
    else if 224 ≤ b0.val && b0.val ≤ 239 && isCont b1 && isCont b2 &&
        (b0.val != 224 || 160 ≤ b1.val) && (b0.val != 237 || b1.val ≤ 159) then
      Char.ofNat ((b0.val - 224) * 4096 + (b1.val - 128) * 64 + (b2.val - 128)) ::
        utf8Chars (b3 :: rest)
    else if 240 ≤ b0.val && b0.val ≤ 244 && isCont b1 && isCont b2 && isCont b3 &&
        (b0.val != 240 || 144 ≤ b1.val) && (b0.val != 244 || b1.val ≤ 143) then
      Char.ofNat ((b0.val - 240) * 262144 + (b1.val - 128) * 4096 + (b2.val - 128) * 64 +
        (b3.val - 128)) :: utf8Chars rest
    else Char.ofNat 65533 :: utf8Chars (b1 :: b2 :: b3 :: rest)

/-- The conversion `string(b)`: a Go string holds the bytes of `b` unchanged, and the text
those bytes spell is their UTF-8 reading. -/
def bytesToString (b : Bytes) : String := String.mk (utf8Chars b)

/-- An `http.Header`: a map from header name to its list of values. -/
abbrev Header := String → Option (List String)

/-- The empty header map `make(Header)`. -/
def Header.empty : Header := fun _ => none

/-- `Header.Set(key, value)`: the canonical form of `key` now maps to the single value. -/
def Header.Set (canon : String → String) (h : Header) (key value : String) : Header :=
  fun name => if name = canon key then some [value] else h name

/-- The fields of `http.Request` that `Get` and `Post` touch; `Trace` tells whether the
context carries the `httptrace.ClientTrace`. -/
structure Request where
  Method : String
  URL : String
  Header : Header
  Body : Option Bytes
  Close : Bool
  Trace : Bool

/-- A response body as an `io.Reader`: the chunks successive `Read` calls deliver, then the
error that ends the stream (`none` is `io.EOF`). -/
structure BodyReader where
  chunks : List Bytes
  final : Option GoError
  deriving DecidableEq, Repr

/-- The field of `http.Response` that `Get` and `Post` touch. -/
structure Response where
  Body : BodyReader
  deriving DecidableEq, Repr

/-- A call of one of the six `httptrace.ClientTrace` hooks, its arguments already rendered
(`%s`, `%#v`) as text. -/
inductive TraceEvent where
  | GetConn (hostPort : String)
  | DNSStart (info : String)
  | DNSDone (info : String)
  | ConnectStart (network addr : String)
  | ConnectDone (network addr err : String)
  | GotConn (info : String)
  deriving DecidableEq, Repr

/-- What `httpClient.Do(req)` yields: the response pointer, the error, and the hooks the
transport called meanwhile. -/
structure DoResult where
  response : Option Response
  err : Option GoError
  hooks : List TraceEvent
  deriving DecidableEq, Repr

/-- The standard library, the network and the clock, as seen by one call. -/
structure World where
  /-- The error of `url.Parse` inside `http.NewRequest` (`none`: the URL parses). -/
  parseURL : String → Option GoError
  /-- The function `textproto.CanonicalMIMEHeaderKey`. -/
  canonicalKey : String → String
  /-- The method `(*http.Client).Do`. -/
  Do : Client → Request → DoResult
  /-- The duration `time.Since(start)` read after the body, in nanoseconds. -/
  elapsed : Nat

/-- `http.NewRequest(method, url, body)` for the fixed, valid methods of this package:
`(nil, err)` when the URL does not parse, else a request with an empty header map. -/
def NewRequest (w : World) (method url : String) (body : Option Bytes) :
    Option Request × Option GoError :=
  match w.parseURL url with
  | some e => (none, some e)
  | none =>
    (some { Method := method, URL := url, Header := Header.empty, Body := body,
            Close := false, Trace := false }, none)

/-- The loop of `io.ReadAll`: append what each `Read` delivers; the first error ends the
loop, and `io.EOF` is reported as `nil`. -/
def readAllLoop (b : Bytes) : List Bytes → Option GoError → Bytes × Option GoError
  | [], final => (b, final)
  | c :: cs, final => readAllLoop (b ++ c) cs final

/-- The function `io.ReadAll`. -/
def ReadAll (r : BodyReader) : Bytes × Option GoError := readAllLoop [] r.chunks r.final

/-! ## The logger and the trace strings -/

/-- One call `l.Write(level, message)`. -/
structure LogLine where
  level : String
  message : String
  deriving DecidableEq, Repr

/-- Modelled from the spec: the method `Utils.Write` is not in the two source files; the
logger "accepts a severity level and a message string" and nothing it returns is
inspected, so a call appends one line to the log. -/
def Write (log : List LogLine) (level message : String) : List LogLine :=
  log ++ [{ level := level, message := message }]

/-- The log after `if err != nil { l.Write("error", fmt.Sprintf(format, err)) }`, where
`format` ends in the verb `%#v`. -/
def logIfError (log : List LogLine) (format : String) (err : Option GoError) : List LogLine :=
  match err with
  | some e => Write log "error" (format ++ e.goSyntax)
  | none => log

/-- Modelled from the spec: the function `Concat` is not in the two source files; it yields
"the concatenation of all six trace phase strings". -/
def Concat (parts : List String) : String := String.join parts

/-- The six local variables the trace hooks assign. -/
structure TraceRecord where
  getConn : String
  dnsStart : String
  dnsDone : String
  connStart : String
  connDone : String
  gotConn : String
  deriving DecidableEq, Repr

/-- The six variables as declared: empty strings. -/
def TraceRecord.empty : TraceRecord := ⟨"", "", "", "", "", ""⟩

/-- The assignment each hook of the `ClientTrace` performs. -/
def TraceRecord.hook (t : TraceRecord) : TraceEvent → TraceRecord
  | .GetConn hostPort => { t with getConn := "Starting to create conn : [" ++ hostPort ++ "], " }
  | .DNSStart info => { t with dnsStart := "starting to look up dns : [" ++ info ++ "], " }
  | .DNSDone info => { t with dnsDone := "done looking up dns : [" ++ info ++ "], " }
  | .ConnectStart network addr =>
    { t with connStart := "starting tcp connection : [" ++ network ++ ", " ++ addr ++ "], " }
  | .ConnectDone network addr err =>
    { t with connDone :=
        "tcp connection created [" ++ network ++ ", " ++ addr ++ ", " ++ err ++ "], " }
  | .GotConn info => { t with gotConn := "conn was reused: [" ++ info ++ "]" }

/-- The trace variables after the hooks called during `Do`. -/
def traceAfter (hooks : List TraceEvent) : TraceRecord :=
  hooks.foldl TraceRecord.hook TraceRecord.empty

/-- The argument `Concat(getConn, dnsStart, dnsDone, connStart, connDone, gotConn)`. -/
def TraceRecord.concat (t : TraceRecord) : String :=
  Concat [t.getConn, t.dnsStart, t.dnsDone, t.connStart, t.connDone, t.gotConn]

/-! ## `Utils.Get` and `Utils.Post` -/

/-- How a call ends: it returns its four results, or the goroutine panics with a nil
pointer dereference at the named expression. -/
inductive Outcome where
  | returned (respBody : Bytes) (elapseInSec elapseInMS : String) (err : Option GoError)
  | panicked (site : String)
  deriving DecidableEq, Repr

/-- What one call did: the lines logged, the client built at line 62 / 140, the arguments
of `httpClient.Do` once that call was made, whether the deferred `Body.Close` ran, and the
outcome. -/
structure Run where
  log : List LogLine
  httpClient : Option Client
  sent : Option (Client × Request)
  bodyClosed : Bool
  outcome : Outcome

/-- `Utils.Get` (http.go 51-128). -/
def Get (w : World) (url : String) (timeout : Int) : Run :=
  let errHttp : Option GoError := none
  let httpClient := HttpClient { Timeout := timeout, KeepAlive := 1, IsDisableKeepAlive := true }
  match NewRequest w "GET" url none with
  | (none, _) =>
    -- line 65: `req.Header` on a nil request
    { log := [], httpClient := httpClient, sent := none, bodyClosed := false, outcome := .panicked "req.Header" }
  | (some req, err) =>
    let req := { req with
      Header := Header.Set w.canonicalKey req.Header "Content-Type" "x-www-form-urlencoded" }
    let req := { req with Close := true }
    let log := logIfError [] "Error Occured : " err
    let req := { req with Trace := true }
    match httpClient with
    | none =>
      { log := log, httpClient := httpClient, sent := none, bodyClosed := false,
        outcome := .panicked "httpClient" }
    | some client =>
      let r := w.Do client req
      let log := logIfError log "Error sending request to API endpoint : " r.err
      match r.response with
      | none =>
        -- line 106: `response.Body` on a nil response
        { log := log, httpClient := httpClient, sent := some (client, req), bodyClosed := false,
          outcome := .panicked "response.Body" }
      | some response =>
        let (respBody, err) := ReadAll response.Body
        let log := logIfError log "Couldn\x27t parse response body : " err
        let elapse := w.elapsed
        let elapseInSec := SprintfF (Seconds elapse)
        let elapseInMS := FormatInt (Milliseconds elapse)
        let log := Write log "info"
          ("Hit: " ++ url ++ ", Response: " ++ bytesToString respBody ++ ", Elapse: " ++
            elapseInSec ++ " second, " ++ elapseInMS ++ " milisecond, live trace : " ++
            (traceAfter r.hooks).concat)
        { log := log, httpClient := httpClient, sent := some (client, req), bodyClosed := true,
          outcome := .returned respBody elapseInSec elapseInMS errHttp }

/-- The loop `for k, v := range headers { req.Header.Set(k, v) }`, the entries taken in
the order the map iteration visits them. -/
def setHeaders (canon : String → String) (h : Header) (visited : List (String × String)) :
    Header :=
  visited.foldl (fun acc kv => Header.Set canon acc kv.1 kv.2) h

/-- `Utils.Post` (http.go 130-214).  `headers` lists the entries of the map in the order
the `range` loop visits them (a Go map has each key once; the order is unspecified). -/
def Post (w : World) (url : String) (headers : List (String × String)) (body : Bytes)
    (timeout : Int) : Run :=
  let httpClient := HttpClient { Timeout := timeout, KeepAlive := 1, IsDisableKeepAlive := true }
  match NewRequest w "POST" url (some body) with
  | (none, _) =>
    -- line 148 (`req.Header`) when there are headers, else line 152 (`req.Close`)
    { log := [], httpClient := httpClient, sent := none, bodyClosed := false,
      outcome := .panicked (if headers.length != 0 then "req.Header" else "req.Close") }
  | (some req, err) =>
    let req :=
      if headers.length != 0 then
        { req with Header := setHeaders w.canonicalKey req.Header headers }
      else req
    let req := { req with Close := true }
    let log := logIfError [] "Error Occured : " err
    let req := { req with Trace := true }
    match httpClient with
    | none =>
      { log := log, httpClient := httpClient, sent := none, bodyClosed := false,
        outcome := .panicked "httpClient" }
    | some client =>
      let r := w.Do client req
      let log := logIfError log "Error sending request to API endpoint : " r.err
      match r.response with
      | none =>
        -- line 192: `response.Body` on a nil response
        { log := log, httpClient := httpClient, sent := some (client, req), bodyClosed := false,
          outcome := .panicked "response.Body" }
      | some response =>
        let (respBody, err) := ReadAll response.Body
        let log := logIfError log "Couldn\x27t parse response body : " err
        let elapse := w.elapsed
        let elapseInSec := SprintfF (Seconds elapse)
        let elapseInMS := FormatInt (Milliseconds elapse)
        let log := Write log "info"
          ("Hit: " ++ url ++ ", Request: " ++ bytesToString body ++ ", Response: " ++
            bytesToString respBody ++ ", Elapse: " ++ elapseInSec ++ " second, " ++
            elapseInMS ++ " milisecond, live trace : " ++ (traceAfter r.hooks).concat)
        { log := log, httpClient := httpClient, sent := some (client, req), bodyClosed := true,
          outcome := .returned respBody elapseInSec elapseInMS err }

/-! ## The standard transport over a network

`World.Do` leaves open how the body a response delivers relates to the bytes a server
wrote.  For the transport `HttpClient` builds, the package `net/http` fixes it
(`Transport.DisableCompression`): unless compression is disabled, a request without
`Accept-Encoding` and `Range` goes out with `Accept-Encoding: gzip` added by the transport,
and an answer that then comes back with `Content-Encoding: gzip` is decoded
transparently in `Response.Body`; an answer to a request that asked for gzip itself is not. -/

/-- What a server writes in answer to one request: whether it declares
`Content-Encoding: gzip`, and the bytes of the response payload as written. -/
structure Answer where
  gzip : Bool
  payload : Bytes
  deriving DecidableEq, Repr

/-- The servers reachable over the network, the library functions and the clock. -/
structure Net where
  /-- The error of `url.Parse` inside `http.NewRequest` (`none`: the URL parses). -/
  parseURL : String → Option GoError
  /-- The function `textproto.CanonicalMIMEHeaderKey`. -/
  canonicalKey : String → String
  /-- The answer to a request, or the transport error; the flag tells whether the request
  on the wire carries the `Accept-Encoding: gzip` the transport adds on its own. -/
  answer : Request → Bool → Except GoError Answer
  /-- The trace hooks called while the request is served. -/
  hooks : Request → List TraceEvent
  /-- The decoder of package `compress/gzip`. -/
  gunzip : Bytes → Bytes
  /-- The duration `time.Since(start)` read after the body, in nanoseconds. -/
  elapsed : Nat

/-- `Header.Get(key)`: the first value under the canonical name, `""` when there is none. -/
def Header.Get (canon : String → String) (h : Header) (key : String) : String :=
  match h (canon key) with
  | some (v :: _) => v
  | _ => ""

/-- Whether the transport asks for gzip on its own: compression not disabled, no
`Accept-Encoding` and no `Range` in the request, method not `HEAD`. -/
def asksGzip (canon : String → String) (c : Client) (r : Request) : Bool :=
  let disable :=
    match c.Transport with
    | some t => t.DisableCompression
    | none => false
  !disable && Header.Get canon r.Header "Accept-Encoding" == "" &&
    Header.Get canon r.Header "Range" == "" && r.Method != "HEAD"

/-- The body `Response.Body` delivers for an answer: the payload as written, or its gzip
decoding when the transport asked for gzip on its own and the answer is gzip-encoded. -/
def delivered (net : Net) (asked : Bool) (a : Answer) : Bytes :=
  if asked && a.gzip then net.gunzip a.payload else a.payload

/-- `(*http.Client).Do` with the standard transport, for an answer that arrives whole. -/
def Net.Do (net : Net) (c : Client) (r : Request) : DoResult :=
  let asked := asksGzip net.canonicalKey c r
  let hooks := if r.Trace then net.hooks r else []
  match net.answer r asked with
  | .error e => { response := none, err := some e, hooks := hooks }
  | .ok a =>
    { response := some { Body := { chunks := [delivered net asked a], final := none } },
      err := none, hooks := hooks }

/-- The world a network gives rise to. -/
def Net.world (net : Net) : World :=
  { parseURL := net.parseURL
    canonicalKey := net.canonicalKey
    Do := net.Do
    elapsed := net.elapsed }

/-! ## Concrete worlds, used to run the model -/

/-- The bytes `textproto` accepts in a header field name (`validHeaderFieldByte`): letters,
digits and the token punctuation, given by character code. -/
def validHeaderFieldByte (c : Char) : Bool :=
  c.isAlphanum ||
    [33, 35, 36, 37, 38, 39, 42, 43, 45, 46, 94, 95, 96, 124, 126].contains c.toNat

/-- The case mapping of `textproto.canonicalMIMEHeaderKey`: upper case at the start and
after a hyphen, lower case elsewhere. -/
def canonicalChars : Bool → List Char → List Char
  | _, [] => []
  | upper, c :: cs =>
    let c1 := if upper then c.toUpper else c.toLower
    c1 :: canonicalChars (c1 == '-') cs

/-- The function `textproto.CanonicalMIMEHeaderKey`: a name with a byte that is not valid
in a field name is returned unchanged. -/
def CanonicalMIMEHeaderKey (s : String) : String :=
  if s.data.all validHeaderFieldByte then String.mk (canonicalChars true s.data) else s

/-- The error of `url.Parse(":")`. -/
def missingScheme : GoError :=
  { text := "parse \":\": missing protocol scheme", goSyntax := "&url.Error(parse)" }

/-- The error of a dial to a port nobody listens on. -/
def connRefused : GoError :=
  { text := "dial tcp 127.0.0.1:1: connect: connection refused",
    goSyntax := "&url.Error(Get)" }

/-- The error of a body whose connection drops before the announced length. -/
def unexpectedEOF : GoError :=
  { text := "unexpected EOF", goSyntax := "&errors.errorString(unexpected EOF)" }

/-- The bytes of `"ping"`. -/
def ping : Bytes := [112, 105, 110, 103]

/-- The bytes of `"pong"`. -/
def pong : Bytes := [112, 111, 110, 103]

/-- A URL parser that rejects only `":"`. -/
def parseOnlyColonFails (u : String) : Option GoError :=
  if u = ":" then some missingScheme else none

/-- A server that answers every request with `"pong"`, in 999999 ns. -/
def echoWorld : World :=
  { parseURL := parseOnlyColonFails
    canonicalKey := CanonicalMIMEHeaderKey
    Do := fun _ _ =>
      { response := some { Body := { chunks := [pong], final := none } }, err := none,
        hooks := [.GetConn "127.0.0.1:80", .GotConn "false"] }
    elapsed := 999999 }

/-- A closed port: every dial is refused, `Do` yields a nil response and the error. -/
def refusedWorld : World :=
  { parseURL := parseOnlyColonFails
    canonicalKey := CanonicalMIMEHeaderKey
    Do := fun _ _ =>
      { response := none, err := some connRefused,
        hooks := [.GetConn "127.0.0.1:1", .ConnectStart "tcp" "127.0.0.1:1",
                  .ConnectDone "tcp" "127.0.0.1:1" "connection refused"] }
    elapsed := 1500000 }

/-- A server whose connection drops after the first two bytes (`"po"`) of its body. -/
def droppedWorld : World :=
  { parseURL := parseOnlyColonFails
    canonicalKey := CanonicalMIMEHeaderKey
    Do := fun _ _ =>
      { response := some { Body := { chunks := [[112, 111]], final := some unexpectedEOF } },
        err := none, hooks := [.GetConn "127.0.0.1:80", .GotConn "false"] }
    elapsed := 2500000 }

/-- A gzip stream whose content is `"pong"`. -/
def pongGzip : Bytes :=
  [31, 139, 8, 0, 0, 0, 0, 0, 2, 3, 43, 200, 207, 75, 7, 0, 79, 65, 88, 33, 4, 0, 0, 0]

/-- A server that answers `"pong"`, gzip-encoded when the request accepts gzip, be it by
the header the transport adds or by one the caller set. -/
def gzipNet : Net :=
  { parseURL := parseOnlyColonFails
    canonicalKey := CanonicalMIMEHeaderKey
    answer := fun r added =>
      if added || Header.Get CanonicalMIMEHeaderKey r.Header "Accept-Encoding" == "gzip" then
        .ok { gzip := true, payload := pongGzip }
      else .ok { gzip := false, payload := pong }
    hooks := fun _ => [.GetConn "127.0.0.1:80", .GotConn "false"]
    gunzip := fun b => if b = pongGzip then pong else b
    elapsed := 999999 }

/-- A server that answers `"pong"` as it is, whatever the request accepts. -/
def plainNet : Net :=
  { parseURL := parseOnlyColonFails
    canonicalKey := CanonicalMIMEHeaderKey
    answer := fun _ _ => .ok { gzip := false, payload := pong }
    hooks := fun _ => [.GetConn "127.0.0.1:80", .GotConn "false"]
    gunzip := fun b => if b = pongGzip then pong else b
    elapsed := 999999 }

/-! ## Lemmas on the model -/

theorem readAllLoop_eq (b : Bytes) (cs : List Bytes) (final : Option GoError) :
    readAllLoop b cs final = (b ++ cs.flatten, final) := by
  induction cs generalizing b with
  | nil => simp [readAllLoop]
  | cons c cs ih => simp [readAllLoop, ih]

theorem ReadAll_eq (r : BodyReader) : ReadAll r = (r.chunks.flatten, r.final) := by
  simp [ReadAll, readAllLoop_eq]

/-- What a returning `Get` did: the URL parsed, `Do` was called and gave a response, the
body is what `io.ReadAll` collected, the error is `errHttp`, never assigned. -/
theorem Get_returned {w : World} {url : String} {timeout : Int} {b : Bytes} {s m : String}
    {e : Option GoError} (h : (Get w url timeout).outcome = .returned b s m e) :
    w.parseURL url = none ∧
    ∃ c r resp, (Get w url timeout).sent = some (c, r) ∧ (w.Do c r).response = some resp ∧
      b = resp.Body.chunks.flatten ∧ e = none ∧
      s = SprintfF (Seconds w.elapsed) ∧ m = FormatInt (Milliseconds w.elapsed) := by
  unfold Get at h ⊢
  cases hp : w.parseURL url with
  | some err => simp [NewRequest, hp] at h
  | none =>
    simp only [NewRequest, hp, HttpClient] at h ⊢
    split at h
    · simp at h
    · rename_i resp hresp
      simp only [ReadAll_eq, Outcome.returned.injEq] at h
      obtain ⟨hb, hs, hm, he⟩ := h
      refine ⟨trivial, ?_⟩
      simp only [hresp]
      exact ⟨_, _, resp, rfl, hresp, hb.symm, he.symm, hs.symm, hm.symm⟩

/-- What a returning `Post` did: as for `Get`, but the error is the one of `io.ReadAll`. -/
theorem Post_returned {w : World} {url : String} {headers : List (String × String)}
    {body : Bytes} {timeout : Int} {b : Bytes} {s m : String} {e : Option GoError}
    (h : (Post w url headers body timeout).outcome = .returned b s m e) :
    w.parseURL url = none ∧
    ∃ c r resp, (Post w url headers body timeout).sent = some (c, r) ∧
      (w.Do c r).response = some resp ∧
      b = resp.Body.chunks.flatten ∧ e = resp.Body.final ∧
      s = SprintfF (Seconds w.elapsed) ∧ m = FormatInt (Milliseconds w.elapsed) := by
  unfold Post at h ⊢
  cases hp : w.parseURL url with
  | some err => simp [NewRequest, hp] at h
  | none =>
    simp only [NewRequest, hp, HttpClient] at h ⊢
    split at h
    · simp at h
    · rename_i resp hresp
      simp only [ReadAll_eq, Outcome.returned.injEq] at h
      obtain ⟨hb, hs, hm, he⟩ := h
      refine ⟨trivial, ?_⟩
      simp only [hresp]
      exact ⟨_, _, resp, rfl, hresp, hb.symm, he.symm, hs.symm, hm.symm⟩

/-- A `Get` whose `Do` call gave a response returns what `io.ReadAll` collected. -/
theorem Get_of_response {w : World} {url : String} {timeout : Int} {c : Client} {r : Request}
    {resp : Response} (hs : (Get w url timeout).sent = some (c, r))
    (hr : (w.Do c r).response = some resp) :
    (Get w url timeout).outcome =
      .returned resp.Body.chunks.flatten (SprintfF (Seconds w.elapsed))
        (FormatInt (Milliseconds w.elapsed)) none := by
  unfold Get at hs ⊢
  cases hp : w.parseURL url with
  | some err => simp [NewRequest, hp] at hs
  | none =>
    simp only [NewRequest, hp, HttpClient] at hs ⊢
    split at hs
    · rename_i hnil
      simp only [Option.some.injEq, Prod.mk.injEq] at hs
      rw [hs.1, hs.2, hr] at hnil
      simp at hnil
    · rename_i resp1 hresp
      simp only [Option.some.injEq, Prod.mk.injEq] at hs
      rw [hs.1, hs.2, hr] at hresp
      simp only [Option.some.injEq] at hresp
      subst hresp
      simp [ReadAll_eq]

/-- A `Post` whose `Do` call gave a response returns what `io.ReadAll` collected and the
error of that read. -/
theorem Post_of_response {w : World} {url : String} {headers : List (String × String)}
    {body : Bytes} {timeout : Int} {c : Client} {r : Request} {resp : Response}
    (hs : (Post w url headers body timeout).sent = some (c, r))
    (hr : (w.Do c r).response = some resp) :
    (Post w url headers body timeout).outcome =
      .returned resp.Body.chunks.flatten (SprintfF (Seconds w.elapsed))
        (FormatInt (Milliseconds w.elapsed)) resp.Body.final := by
  unfold Post at hs ⊢
  cases hp : w.parseURL url with
  | some err => simp [NewRequest, hp] at hs
  | none =>
    simp only [NewRequest, hp, HttpClient] at hs ⊢
    split at hs
    · rename_i hnil
      simp only [Option.some.injEq, Prod.mk.injEq] at hs
      rw [hs.1, hs.2, hr] at hnil
      simp at hnil
    · rename_i resp1 hresp
      simp only [Option.some.injEq, Prod.mk.injEq] at hs
      rw [hs.1, hs.2, hr] at hresp
      simp only [Option.some.injEq] at hresp
      subst hresp
      simp [ReadAll_eq]

/-- When the URL does not parse, `Get` dereferences the nil request at line 65, before the
check of `err` at line 68: nothing is logged. -/
theorem Get_of_construction_error {w : World} {url : String} {timeout : Int} {err : GoError}
    (h : w.parseURL url = some err) :
    (Get w url timeout).log = [] ∧ ∃ site, (Get w url timeout).outcome = .panicked site := by
  simp [Get, NewRequest, h]

/-- When the URL does not parse, `Post` dereferences the nil request at line 148 or 152,
before the check of `err` at line 154: nothing is logged. -/
theorem Post_of_construction_error {w : World} {url : String}
    {headers : List (String × String)} {body : Bytes} {timeout : Int} {err : GoError}
    (h : w.parseURL url = some err) :
    (Post w url headers body timeout).log = [] ∧
      ∃ site, (Post w url headers body timeout).outcome = .panicked site := by
  simp [Post, NewRequest, h]

/-- When `Do` yields a nil response, `Get` logs the transport error, if any, and then
dereferences the nil response at line 106. -/
theorem Get_of_nil_response {w : World} {url : String} {timeout : Int} {c : Client}
    {r : Request} (hs : (Get w url timeout).sent = some (c, r))
    (hr : (w.Do c r).response = none) :
    (Get w url timeout).outcome = .panicked "response.Body" ∧
      (Get w url timeout).log =
        logIfError [] "Error sending request to API endpoint : " (w.Do c r).err := by
  unfold Get at hs ⊢
  cases hp : w.parseURL url with
  | some err => simp [NewRequest, hp] at hs
  | none =>
    simp only [NewRequest, hp, HttpClient] at hs ⊢
    split at hs
    · rename_i hnil
      simp only [Option.some.injEq, Prod.mk.injEq] at hs
      rw [hs.1, hs.2] at hnil ⊢
      simp [hnil, logIfError]
    · rename_i resp1 hresp
      simp only [Option.some.injEq, Prod.mk.injEq] at hs
      rw [hs.1, hs.2, hr] at hresp
      simp at hresp

/-- The request `Post` hands to `Do` carries the header map built by the loop from the
empty map of `http.NewRequest`. -/
theorem Post_sent_header {w : World} {url : String} {headers : List (String × String)}
    {body : Bytes} {timeout : Int} {c : Client} {r : Request}
    (hs : (Post w url headers body timeout).sent = some (c, r)) :
    r.Header = setHeaders w.canonicalKey Header.empty headers ∧
      HttpClient { Timeout := timeout, KeepAlive := 1, IsDisableKeepAlive := true } = some c := by
  unfold Post at hs
  cases hp : w.parseURL url with
  | some err => simp [NewRequest, hp] at hs
  | none =>
    simp only [NewRequest, hp, HttpClient] at hs ⊢
    have hh : ∀ x : Option (Client × Request), x = some (c, r) →
        ∀ c0 r0, x = some (c0, r0) → r0 = r ∧ c0 = c := by
      intro x hx c0 r0 hx0
      rw [hx] at hx0
      simp only [Option.some.injEq, Prod.mk.injEq] at hx0
      exact ⟨hx0.2.symm, hx0.1.symm⟩
    split at hs
    · obtain ⟨h1, h2⟩ := hh _ hs _ _ rfl
      refine ⟨?_, by rw [h2]⟩
      rw [← h1]
      cases headers with
      | nil => simp [setHeaders]
      | cons kv rest => simp
    · obtain ⟨h1, h2⟩ := hh _ hs _ _ rfl
      refine ⟨?_, by rw [h2]⟩
      rw [← h1]
      cases headers with
      | nil => simp [setHeaders]
      | cons kv rest => simp

/-- The client `Get` hands to `Do` is the one `HttpClient` built. -/
theorem Get_sent_client {w : World} {url : String} {timeout : Int} {c : Client} {r : Request}
    (hs : (Get w url timeout).sent = some (c, r)) :
    HttpClient { Timeout := timeout, KeepAlive := 1, IsDisableKeepAlive := true } = some c := by
  unfold Get at hs
  cases hp : w.parseURL url with
  | some err => simp [NewRequest, hp] at hs
  | none =>
    simp only [NewRequest, hp, HttpClient] at hs ⊢
    split at hs <;>
    · simp only [Option.some.injEq, Prod.mk.injEq] at hs
      rw [hs.1]

/-- A header name no visited key names keeps its value through the loop. -/
theorem setHeaders_of_not_named (canon : String → String) (name : String) :
    ∀ (vs : List (String × String)) (h : Header),
      (∀ kv ∈ vs, canon kv.1 ≠ name) → setHeaders canon h vs name = h name := by
  intro vs
  induction vs with
  | nil => intro h _; rfl
  | cons kv rest ih =>
    intro h hn
    have h1 : canon kv.1 ≠ name := hn kv (List.mem_cons_self _ _)
    have h2 : ∀ kv1 ∈ rest, canon kv1.1 ≠ name := fun kv1 hk => hn kv1 (List.mem_cons_of_mem _ hk)
    show setHeaders canon (Header.Set canon h kv.1 kv.2) rest name = h name
    rw [ih _ h2]
    simp [Header.Set, Ne.symm h1]

/-- A header name some visited key names ends with the single value of one such key. -/
theorem setHeaders_of_named (canon : String → String) (name : String) :
    ∀ (vs : List (String × String)) (h : Header),
      (∃ kv ∈ vs, canon kv.1 = name) →
      ∃ kv ∈ vs, canon kv.1 = name ∧ setHeaders canon h vs name = some [kv.2] := by
  intro vs
  induction vs with
  | nil => intro h hx; obtain ⟨kv, hk, _⟩ := hx; simp at hk
  | cons kv rest ih =>
    intro h hx
    show ∃ kv1 ∈ kv :: rest, canon kv1.1 = name ∧
      setHeaders canon (Header.Set canon h kv.1 kv.2) rest name = some [kv1.2]
    by_cases hr : ∃ kv1 ∈ rest, canon kv1.1 = name
    · obtain ⟨kv1, hk1, hc1, hv1⟩ := ih (Header.Set canon h kv.1 kv.2) hr
      exact ⟨kv1, List.mem_cons_of_mem _ hk1, hc1, hv1⟩
    · have hn : ∀ kv1 ∈ rest, canon kv1.1 ≠ name := fun kv1 hk hc => hr ⟨kv1, hk, hc⟩
      have hkv : canon kv.1 = name := by
        obtain ⟨kv1, hk1, hc1⟩ := hx
        rcases List.mem_cons.mp hk1 with heq | hmem
        · rw [← heq]; exact hc1
        · exact absurd hc1 (hn kv1 hmem)
      refine ⟨kv, List.mem_cons_self _ _, hkv, ?_⟩
      rw [setHeaders_of_not_named canon name rest _ hn]
      simp [Header.Set, hkv]

/-- The client a call builds is the one `HttpClient` returns for the timeout, a keep-alive
of one second and keep-alives disabled, whatever happens afterwards. -/
theorem Get_httpClient (w : World) (url : String) (timeout : Int) :
    (Get w url timeout).httpClient =
      HttpClient { Timeout := timeout, KeepAlive := 1, IsDisableKeepAlive := true } := by
  unfold Get
  cases hp : w.parseURL url with
  | some err => simp [NewRequest, hp]
  | none =>
    simp only [NewRequest, hp, HttpClient]
    split <;> rfl

theorem Post_httpClient (w : World) (url : String) (headers : List (String × String))
    (body : Bytes) (timeout : Int) :
    (Post w url headers body timeout).httpClient =
      HttpClient { Timeout := timeout, KeepAlive := 1, IsDisableKeepAlive := true } := by
  unfold Post
  cases hp : w.parseURL url with
  | some err => simp [NewRequest, hp]
  | none =>
    simp only [NewRequest, hp, HttpClient]
    split <;> rfl

/-- When the URL parses, `Get` reaches `httpClient.Do`, with a `GET` request whose only
header is the `Content-Type` of line 65. -/
theorem Get_sent_of_parse {w : World} {url : String} (timeout : Int)
    (h : w.parseURL url = none) :
    ∃ c r, (Get w url timeout).sent = some (c, r) ∧ r.Method = "GET" ∧
      r.Header = Header.Set w.canonicalKey Header.empty "Content-Type" "x-www-form-urlencoded" := by
  unfold Get
  simp only [NewRequest, h, HttpClient]
  split <;> exact ⟨_, _, rfl, rfl, rfl⟩

/-- When the URL parses, `Post` reaches `httpClient.Do`, with a `POST` request. -/
theorem Post_sent_of_parse {w : World} {url : String} (headers : List (String × String))
    (body : Bytes) (timeout : Int) (h : w.parseURL url = none) :
    ∃ c r, (Post w url headers body timeout).sent = some (c, r) ∧ r.Method = "POST" := by
  unfold Post
  simp only [NewRequest, h, HttpClient]
  split
  · refine ⟨_, _, rfl, ?_⟩
    split <;> rfl
  · refine ⟨_, _, rfl, ?_⟩
    split <;> rfl


/-! ## Lemmas on the float64 arithmetic and the texts -/

theorem digitChar_props (k : Nat) (h : k < 10) :
    (Nat.digitChar k).toNat - 48 = k ∧ (Nat.digitChar k).isDigit = true ∧
      ((Nat.digitChar k) != '.') = true := by
  interval_cases k <;> decide

theorem readDigits_append_digit (cs : List Char) (k : Nat) (h : k < 10) :
    readDigits (cs ++ [Nat.digitChar k]) = 10 * readDigits cs + k := by
  simp only [readDigits, List.foldl_append, List.foldl_cons, List.foldl_nil]
  rw [(digitChar_props k h).1]

theorem decimalAux_spec : ∀ (fuel n : Nat), n < fuel →
    readDigits (decimalAux fuel n) = n ∧
      ∀ c ∈ decimalAux fuel n, c.isDigit = true ∧ (c != '.') = true := by
  intro fuel
  induction fuel with
  | zero => intro n h; omega
  | succ fuel ih =>
    intro n hn
    simp only [decimalAux]
    split_ifs with h10
    · refine ⟨?_, ?_⟩
      · have := readDigits_append_digit [] n h10
        simpa [readDigits] using this
      · intro c hc
        simp only [List.mem_singleton] at hc
        subst hc
        exact (digitChar_props n h10).2
    · obtain ⟨h1, h2⟩ := ih (n / 10) (by omega)
      refine ⟨?_, ?_⟩
      · rw [readDigits_append_digit _ _ (Nat.mod_lt _ (by norm_num)), h1]
        omega
      · intro c hc
        rcases List.mem_append.mp hc with hc | hc
        · exact h2 c hc
        · simp only [List.mem_singleton] at hc
          subst hc
          exact (digitChar_props _ (Nat.mod_lt _ (by norm_num))).2

theorem decimal_spec (n : Nat) :
    readDigits (decimal n) = n ∧ ∀ c ∈ decimal n, c.isDigit = true ∧ (c != '.') = true :=
  decimalAux_spec (n + 1) n (Nat.lt_succ_self n)

theorem sixDigits_spec (n : Nat) (h : n < 1000000) :
    readDigits (sixDigits n) = n ∧ (sixDigits n).length = 6 ∧
      ∀ c ∈ sixDigits n, c.isDigit = true := by
  have hd : ∀ k, (Nat.digitChar (k % 10)).toNat - 48 = k % 10 ∧
      (Nat.digitChar (k % 10)).isDigit = true :=
    fun k => ⟨(digitChar_props _ (Nat.mod_lt _ (by norm_num))).1,
      (digitChar_props _ (Nat.mod_lt _ (by norm_num))).2.1⟩
  refine ⟨?_, rfl, ?_⟩
  · simp only [readDigits, sixDigits, List.foldl_cons, List.foldl_nil, (hd _).1]
    omega
  · intro c hc
    simp only [sixDigits, List.mem_cons, List.mem_singleton, List.not_mem_nil, or_false] at hc
    rcases hc with rfl | rfl | rfl | rfl | rfl | rfl <;> exact (hd _).2

/-- The number read back from a `%f` text is the printed integer of millionths over
`10^6`. -/
theorem readFixed_SprintfF (x : Float64) :
    readFixed (SprintfF x) = (fixed6Micros x : ℚ) / 1000000 := by
  obtain ⟨hi, hall⟩ := decimal_spec (fixed6Micros x / 1000000)
  obtain ⟨hf, hlen, _⟩ := sixDigits_spec (fixed6Micros x % 1000000) (Nat.mod_lt _ (by norm_num))
  have hp : ∀ c ∈ decimal (fixed6Micros x / 1000000), (c != '.') = true :=
    fun c hc => (hall c hc).2
  have htake : List.takeWhile (fun c => c != '.')
      (decimal (fixed6Micros x / 1000000) ++ '.' :: sixDigits (fixed6Micros x % 1000000)) =
      decimal (fixed6Micros x / 1000000) := by
    rw [List.takeWhile_append_of_pos hp]
    simp
  have hdrop : List.dropWhile (fun c => c != '.')
      (decimal (fixed6Micros x / 1000000) ++ '.' :: sixDigits (fixed6Micros x % 1000000)) =
      '.' :: sixDigits (fixed6Micros x % 1000000) := by
    rw [List.dropWhile_append_of_pos hp]
    simp
  simp only [readFixed, SprintfF, htake, hdrop, List.drop_succ_cons, List.drop_zero, hi, hf, hlen]
  have hdm := Nat.div_add_mod (fixed6Micros x) 1000000
  have hq : (fixed6Micros x : ℚ) =
      1000000 * ((fixed6Micros x / 1000000 : Nat) : ℚ) + ((fixed6Micros x % 1000000 : Nat) : ℚ) := by
    exact_mod_cast hdm.symm
  rw [hq]
  field_simp
  ring

theorem readInt_FormatInt (n : Nat) :
    readInt (FormatInt n) = n ∧ ∀ c ∈ (FormatInt n).data, c.isDigit = true := by
  obtain ⟨h1, h2⟩ := decimal_spec n
  exact ⟨by simp [readInt, FormatInt, h1], fun c hc => (h2 c hc).1⟩

/-! ## The claims -/

/-- C1 as stated fails: the transport `HttpClient` builds asks for gzip on its own; the
server writes a gzip stream as the response payload; every step succeeds, and `Get`
returns the decoded `"pong"`, not the bytes the server wrote. -/
theorem Get_returns_decoded_not_written_bytes :
    ∃ c r, (Get gzipNet.world "http://127.0.0.1:8080/echo" 5).sent = some (c, r) ∧
      gzipNet.answer r (asksGzip gzipNet.canonicalKey c r) =
        .ok { gzip := true, payload := pongGzip } ∧
      (Get gzipNet.world "http://127.0.0.1:8080/echo" 5).outcome =
        .returned pong (SprintfF (Seconds 999999)) (FormatInt (Milliseconds 999999)) none ∧
      pong ≠ pongGzip :=
  ⟨_, _, rfl, rfl, rfl, by decide⟩

/-- C1 amended: when the URL parses, `Get` and `Post` reach `httpClient.Do`; for every
answer the server gives to that request they return exactly the body the response
delivers, complete and in order, and a nil error: the payload as the server wrote it,
unless the transport asked for gzip on its own (the request has no `Accept-Encoding` and
no `Range` header, as always for `Get`) and the answer is gzip-encoded, when it is the
decoded payload. -/
theorem Get_Post_return_delivered_payload (net : Net) (url : String)
    (headers : List (String × String)) (body : Bytes) (timeout : Int)
    (hurl : net.parseURL url = none) :
    (∃ c r, (Get net.world url timeout).sent = some (c, r) ∧
      (net.canonicalKey "Accept-Encoding" ≠ net.canonicalKey "Content-Type" →
        net.canonicalKey "Range" ≠ net.canonicalKey "Content-Type" →
        asksGzip net.canonicalKey c r = true) ∧
      ∀ a, net.answer r (asksGzip net.canonicalKey c r) = .ok a →
        (Get net.world url timeout).outcome =
          .returned (delivered net (asksGzip net.canonicalKey c r) a)
            (SprintfF (Seconds net.elapsed)) (FormatInt (Milliseconds net.elapsed)) none ∧
        (a.gzip = false → delivered net (asksGzip net.canonicalKey c r) a = a.payload) ∧
        (a.gzip = true → asksGzip net.canonicalKey c r = true →
          delivered net (asksGzip net.canonicalKey c r) a = net.gunzip a.payload)) ∧
    (∃ c r, (Post net.world url headers body timeout).sent = some (c, r) ∧
      ∀ a, net.answer r (asksGzip net.canonicalKey c r) = .ok a →
        (Post net.world url headers body timeout).outcome =
          .returned (delivered net (asksGzip net.canonicalKey c r) a)
            (SprintfF (Seconds net.elapsed)) (FormatInt (Milliseconds net.elapsed)) none ∧
        (a.gzip = false ∨ asksGzip net.canonicalKey c r = false →
          delivered net (asksGzip net.canonicalKey c r) a = a.payload) ∧
        (a.gzip = true → asksGzip net.canonicalKey c r = true →
          delivered net (asksGzip net.canonicalKey c r) a = net.gunzip a.payload)) := by
  have hw : net.world.parseURL url = none := hurl
  have hdel1 : ∀ (asked : Bool) (a : Answer), (a.gzip = false ∨ asked = false) →
      delivered net asked a = a.payload := by
    intro asked a h
    rcases h with h | h <;> simp [delivered, h]
  have hdel2 : ∀ (asked : Bool) (a : Answer), a.gzip = true → asked = true →
      delivered net asked a = net.gunzip a.payload := by
    intro asked a h1 h2
    simp [delivered, h1, h2]
  constructor
  · obtain ⟨c, r, hs, hm, hh⟩ := Get_sent_of_parse timeout hw
    have hc := Get_sent_client hs
    refine ⟨c, r, hs, ?_, ?_⟩
    · intro h1 h2
      simp only [HttpClient, Option.some.injEq] at hc
      have hname1 : ¬ net.world.canonicalKey "Accept-Encoding" =
          net.world.canonicalKey "Content-Type" := h1
      have hname2 : ¬ net.world.canonicalKey "Range" =
          net.world.canonicalKey "Content-Type" := h2
      have hname3 : ¬ net.canonicalKey "Accept-Encoding" =
          net.world.canonicalKey "Content-Type" := h1
      have hname4 : ¬ net.canonicalKey "Range" =
          net.world.canonicalKey "Content-Type" := h2
      simp [asksGzip, ← hc, Header.Get, hh, hm, Header.Set, Header.empty, hname1, hname2,
        hname3, hname4]
    · intro a ha
      have hdo : (net.world.Do c r).response =
          some { Body := { chunks := [delivered net (asksGzip net.canonicalKey c r) a],
                           final := none } } := by
        show (net.Do c r).response = _
        simp [Net.Do, ha]
      refine ⟨?_, fun h => hdel1 _ _ (Or.inl h), hdel2 _ _⟩
      rw [Get_of_response hs hdo]
      simp [Net.world]
  · obtain ⟨c, r, hs, _⟩ := Post_sent_of_parse headers body timeout hw
    refine ⟨c, r, hs, ?_⟩
    intro a ha
    have hdo : (net.world.Do c r).response =
        some { Body := { chunks := [delivered net (asksGzip net.canonicalKey c r) a],
                         final := none } } := by
      show (net.Do c r).response = _
      simp [Net.Do, ha]
    refine ⟨?_, hdel1 _ _, hdel2 _ _⟩
    rw [Post_of_response hs hdo]
    simp [Net.world]

/-- C1 amended, on the scenario of the spec: `Post(url, {}, "ping", 5)` and `Get(url, 5)`
against the server answering `"pong"` as it is. -/
theorem Get_Post_return_delivered_payload_witness :
    plainNet.parseURL "http://127.0.0.1:8080/echo" = none ∧
    (Get plainNet.world "http://127.0.0.1:8080/echo" 5).outcome =
      .returned pong (SprintfF (Seconds 999999)) (FormatInt (Milliseconds 999999)) none ∧
    (Post plainNet.world "http://127.0.0.1:8080/echo" [] ping 5).outcome =
      .returned pong (SprintfF (Seconds 999999)) (FormatInt (Milliseconds 999999)) none := by
  have h := Get_Post_return_delivered_payload plainNet "http://127.0.0.1:8080/echo" [] ping 5
    (by decide)
  obtain ⟨⟨cG, rG, hsG, _, hG⟩, ⟨cP, rP, hsP, hP⟩⟩ := h
  refine ⟨by decide, ?_, ?_⟩
  · have h1 := hG { gzip := false, payload := pong } rfl
    rw [h1.1, h1.2.1 rfl]
    rfl
  · have h1 := hP { gzip := false, payload := pong } rfl
    rw [h1.1, h1.2.1 (Or.inl rfl)]
    rfl

/-- C2: whenever `Get` returns, its fourth result, the error, is nil. -/
theorem Get_error_is_nil (w : World) (url : String) (timeout : Int) (b : Bytes)
    (s m : String) (e : Option GoError)
    (h : (Get w url timeout).outcome = .returned b s m e) : e = none :=
  (Get_returned h).2.choose_spec.choose_spec.choose_spec.2.2.2.1

/-- C2, on a run that returns: `Get` against the server answering `"pong"`. -/
theorem Get_error_is_nil_witness :
    (Get echoWorld "http://127.0.0.1:8080/echo" 2).outcome =
      .returned pong (SprintfF (Seconds 999999)) (FormatInt (Milliseconds 999999)) none ∧
    (none : Option GoError) = none :=
  ⟨rfl, Get_error_is_nil echoWorld "http://127.0.0.1:8080/echo" 2 pong
    (SprintfF (Seconds 999999)) (FormatInt (Milliseconds 999999)) none rfl⟩

/-- C3, the failing run: against a closed port `Do` yields a nil response and the
connection-refused error; `Get` logs that error and then panics on `response.Body` at line
106, so it does not return an empty body, two elapsed strings and a nil error. -/
theorem Get_refused_panics :
    (Get refusedWorld "http://127.0.0.1:1" 2).log =
      [{ level := "error",
         message := "Error sending request to API endpoint : &url.Error(Get)" }] ∧
    (Get refusedWorld "http://127.0.0.1:1" 2).outcome = .panicked "response.Body" ∧
    ¬ ∃ b s m e, (Get refusedWorld "http://127.0.0.1:1" 2).outcome = .returned b s m e := by
  refine ⟨by decide, by decide, ?_⟩
  rintro ⟨b, s, m, e, h⟩
  have h2 : (Get refusedWorld "http://127.0.0.1:1" 2).outcome = .panicked "response.Body" := by
    decide
  rw [h2] at h
  exact Outcome.noConfusion h

/-- C4, the failing run: `Post` on a URL that does not parse panics on `req.Header` at line
148 with an empty log, so the construction error is never logged at error level. -/
theorem Post_construction_error_not_logged :
    echoWorld.parseURL ":" = some missingScheme ∧
    (Post echoWorld ":" [("X-Test", "a")] ping 5).log = [] ∧
    (Post echoWorld ":" [("X-Test", "a")] ping 5).outcome = .panicked "req.Header" := by
  decide

/-- The part of C4 that holds: whenever `Post` returns, the error it returns is the error
of reading the response body, whatever the transport error was. -/
theorem Post_error_is_read_error (w : World) (url : String) (headers : List (String × String))
    (body : Bytes) (timeout : Int) (b : Bytes) (s m : String) (e : Option GoError)
    (h : (Post w url headers body timeout).outcome = .returned b s m e) :
    ∃ c r resp, (Post w url headers body timeout).sent = some (c, r) ∧
      (w.Do c r).response = some resp ∧ e = (ReadAll resp.Body).2 := by
  obtain ⟨_, c, r, resp, hs, hr, _, he, _⟩ := Post_returned h
  exact ⟨c, r, resp, hs, hr, by rw [ReadAll_eq]; exact he⟩

/-- C5 as stated fails: the connection drops after the bytes `"po"`; the read fails, and
`Get` and `Post` return those two bytes, not an empty body. -/
theorem Get_Post_return_bytes_read_before_failure :
    (ReadAll { chunks := [[112, 111]], final := some unexpectedEOF }).2 = some unexpectedEOF ∧
    (Get droppedWorld "http://127.0.0.1:8080/" 2).outcome =
      .returned [112, 111] (SprintfF (Seconds 2500000)) (FormatInt (Milliseconds 2500000))
        none ∧
    (Post droppedWorld "http://127.0.0.1:8080/" [] ping 2).outcome =
      .returned [112, 111] (SprintfF (Seconds 2500000)) (FormatInt (Milliseconds 2500000))
        (some unexpectedEOF) ∧
    ([112, 111] : Bytes) ≠ [] := by
  refine ⟨rfl, rfl, rfl, by decide⟩

/-- C5 amended: a `Get` that returns carries exactly the bytes `io.ReadAll` collected from
the response to the request it sent, all chunks delivered before the stream ended,
whether it ended with `io.EOF` or with an error; conversely, whenever `Do` gives `Get` a
response, `Get` returns those bytes; and the same holds of `Post` with its own request. -/
theorem Get_Post_body_is_bytes_read (w : World) (url : String)
    (headers : List (String × String)) (body : Bytes) (timeout : Int) :
    (∀ b s m e, (Get w url timeout).outcome = .returned b s m e →
      ∃ c r resp, (Get w url timeout).sent = some (c, r) ∧
        (w.Do c r).response = some resp ∧
        b = (ReadAll resp.Body).1 ∧ b = resp.Body.chunks.flatten) ∧
    (∀ c r resp, (Get w url timeout).sent = some (c, r) → (w.Do c r).response = some resp →
      ∃ s m e, (Get w url timeout).outcome = .returned (ReadAll resp.Body).1 s m e) ∧
    (∀ b s m e, (Post w url headers body timeout).outcome = .returned b s m e →
      ∃ c r resp, (Post w url headers body timeout).sent = some (c, r) ∧
        (w.Do c r).response = some resp ∧
        b = (ReadAll resp.Body).1 ∧ b = resp.Body.chunks.flatten) ∧
    (∀ c r resp, (Post w url headers body timeout).sent = some (c, r) →
      (w.Do c r).response = some resp →
      ∃ s m e, (Post w url headers body timeout).outcome =
        .returned (ReadAll resp.Body).1 s m e) := by
  refine ⟨?_, ?_, ?_, ?_⟩
  · intro b s m e h
    obtain ⟨_, c, r, resp, hs, hr, hb, _⟩ := Get_returned h
    exact ⟨c, r, resp, hs, hr, by rw [ReadAll_eq]; exact hb, hb⟩
  · intro c r resp hs hr
    exact ⟨_, _, _, by rw [ReadAll_eq]; exact Get_of_response hs hr⟩
  · intro b s m e h
    obtain ⟨_, c, r, resp, hs, hr, hb, _⟩ := Post_returned h
    exact ⟨c, r, resp, hs, hr, by rw [ReadAll_eq]; exact hb, hb⟩
  · intro c r resp hs hr
    exact ⟨_, _, _, by rw [ReadAll_eq]; exact Post_of_response hs hr⟩

/-- C5 amended, on the runs whose read fails after two bytes: both calls return, with the
two bytes read. -/
theorem Get_Post_body_is_bytes_read_witness :
    (∃ s m e, (Get droppedWorld "http://127.0.0.1:8080/" 2).outcome =
      .returned [112, 111] s m e) ∧
    (∃ s m e, (Post droppedWorld "http://127.0.0.1:8080/" [] ping 2).outcome =
      .returned [112, 111] s m e) :=
  ⟨(Get_Post_body_is_bytes_read droppedWorld "http://127.0.0.1:8080/" [] ping 2).2.1 _ _
      { Body := { chunks := [[112, 111]], final := some unexpectedEOF } } rfl rfl,
   (Get_Post_body_is_bytes_read droppedWorld "http://127.0.0.1:8080/" [] ping 2).2.2.2 _ _
      { Body := { chunks := [[112, 111]], final := some unexpectedEOF } } rfl rfl⟩

/-- C6, the failing runs: on the URL `":"`, which `http.NewRequest` rejects, `Get` panics
on `req.Header` (line 65) and `Post` on `req.Close` (line 152), both with an empty log:
the error log of lines 68-72 and 154-158 is never reached. -/
theorem Get_Post_construction_error_panics :
    echoWorld.parseURL ":" = some missingScheme ∧
    (Get echoWorld ":" 2).log = [] ∧
    (Get echoWorld ":" 2).outcome = .panicked "req.Header" ∧
    (Post echoWorld ":" [] ping 5).log = [] ∧
    (Post echoWorld ":" [] ping 5).outcome = .panicked "req.Close" := by
  decide

theorem wrapInt64_of_range (x : Int) (h1 : -9223372036854775808 ≤ x)
    (h2 : x < 9223372036854775808) : wrapInt64 x = x := by
  unfold wrapInt64
  omega

/-- C7 as stated fails: for `Timeout = 9223372037` the int64 product with `time.Second`
wraps, and the client timeout is a negative duration, not 9223372037 seconds. -/
theorem HttpClient_timeout_wraps :
    ∃ c, HttpClient { Timeout := 9223372037, KeepAlive := 1, IsDisableKeepAlive := true } = some c ∧
      c.Timeout = -9223372036709551616 ∧ c.Timeout ≠ 9223372037 * 1000000000 := by
  refine ⟨_, rfl, ?_, ?_⟩ <;> decide

/-- C7 amended: for every `p`, `HttpClient` returns a non-nil client whose `Timeout` is the
int64 product `p.Timeout * time.Second`; that product is `p.Timeout × 1,000,000,000`
nanoseconds exactly when `-9223372036 ≤ p.Timeout ≤ 9223372036`, and wraps otherwise. -/
theorem HttpClient_timeout (p : PHttp) :
    ∃ c, HttpClient p = some c ∧ c.Timeout = wrapInt64 (p.Timeout * 1000000000) ∧
      (c.Timeout = p.Timeout * 1000000000 ↔
        (-9223372036 ≤ p.Timeout ∧ p.Timeout ≤ 9223372036)) := by
  refine ⟨_, rfl, rfl, ?_⟩
  show wrapInt64 (p.Timeout * 1000000000) = p.Timeout * 1000000000 ↔ _
  unfold wrapInt64
  constructor
  · intro h
    constructor <;> omega
  · intro h
    omega

/-- C7 amended, for the two-second timeout of the spec scenario. -/
theorem HttpClient_timeout_witness :
    ∃ c, HttpClient { Timeout := 2, KeepAlive := 1, IsDisableKeepAlive := true } = some c ∧
      c.Timeout = 2000000000 := by
  obtain ⟨c, h1, _, h3⟩ :=
    HttpClient_timeout { Timeout := 2, KeepAlive := 1, IsDisableKeepAlive := true }
  exact ⟨c, h1, by rw [h3.mpr (by decide)]; rfl⟩

/-- C8: the transport of the client `HttpClient` returns has a dial timeout of one second
whatever `p.Timeout` is, a TLS handshake timeout of ten seconds, certificate verification
disabled, the proxy taken from the environment and `DisableKeepAlives` equal to
`p.IsDisableKeepAlive`; and every call of `Get` and of `Post` builds a client with
keep-alives disabled, which is the client it hands to `Do` when it gets that far. -/
theorem HttpClient_transport (p : PHttp) (w : World) (url : String)
    (headers : List (String × String)) (body : Bytes) (timeout : Int) :
    (∃ c t d cfg, HttpClient p = some c ∧ c.Transport = some t ∧
      t.Dial = some d ∧ d.Timeout = 1000000000 ∧
      t.TLSHandshakeTimeout = 10000000000 ∧
      t.TLSClientConfig = some cfg ∧ cfg.InsecureSkipVerify = true ∧
      t.Proxy = some ProxyFunc.ProxyFromEnvironment ∧
      t.DisableKeepAlives = p.IsDisableKeepAlive) ∧
    (∃ c t, (Get w url timeout).httpClient = some c ∧ c.Transport = some t ∧
      t.DisableKeepAlives = true ∧
      ∀ c1 r, (Get w url timeout).sent = some (c1, r) → c1 = c) ∧
    (∃ c t, (Post w url headers body timeout).httpClient = some c ∧ c.Transport = some t ∧
      t.DisableKeepAlives = true ∧
      ∀ c1 r, (Post w url headers body timeout).sent = some (c1, r) → c1 = c) := by
  have h1 : durMul 1 Second = 1000000000 := by decide
  have h10 : durMul 10 Second = 10000000000 := by decide
  refine ⟨?_, ?_, ?_⟩
  · exact ⟨_, _, _, _, rfl, rfl, rfl, h1, h10, rfl, rfl, rfl, rfl⟩
  · refine ⟨_, _, Get_httpClient w url timeout, rfl, rfl, ?_⟩
    intro c1 r hs
    have hc := Get_sent_client hs
    simp only [HttpClient, Option.some.injEq] at hc
    exact hc.symm
  · refine ⟨_, _, Post_httpClient w url headers body timeout, rfl, rfl, ?_⟩
    intro c1 r hs
    have hc := (Post_sent_header hs).2
    simp only [HttpClient, Option.some.injEq] at hc
    exact hc.symm

/-- C9: let `entries` be the entries of the header map (each key once) and `visited` any
order in which the loop takes them.  In the request `Post` hands to `Do`, every key `k` of
the map has, under its canonical name, a single value, supplied by the map for a key of
the same canonical name; that value is `headers[k]` when no other key shares the name; and
a name no key of the map names, `Content-Type` included, is not set. -/
theorem Post_header_loop (w : World) (url : String) (entries visited : List (String × String))
    (body : Bytes) (timeout : Int) (c : Client) (r : Request)
    (hkeys : (entries.map Prod.fst).Nodup)
    (horder : visited.Perm entries)
    (hs : (Post w url visited body timeout).sent = some (c, r)) :
    (∀ k v, (k, v) ∈ entries →
      ∃ k1 v1, (k1, v1) ∈ entries ∧ w.canonicalKey k1 = w.canonicalKey k ∧
        r.Header (w.canonicalKey k) = some [v1]) ∧
    (∀ k v, (k, v) ∈ entries →
      (∀ k1 v1, (k1, v1) ∈ entries → w.canonicalKey k1 = w.canonicalKey k → k1 = k) →
        r.Header (w.canonicalKey k) = some [v]) ∧
    (∀ name, (∀ k v, (k, v) ∈ entries → w.canonicalKey k ≠ name) → r.Header name = none) ∧
    ((∀ k v, (k, v) ∈ entries → w.canonicalKey k ≠ w.canonicalKey "Content-Type") →
      r.Header (w.canonicalKey "Content-Type") = none) := by
  have hH := (Post_sent_header hs).1
  have hnamed : ∀ k v, (k, v) ∈ entries →
      ∃ k1 v1, (k1, v1) ∈ entries ∧ w.canonicalKey k1 = w.canonicalKey k ∧
        r.Header (w.canonicalKey k) = some [v1] := by
    intro k v hkv
    have hv : (k, v) ∈ visited := horder.mem_iff.mpr hkv
    obtain ⟨kv1, hm, hc, hval⟩ :=
      setHeaders_of_named w.canonicalKey (w.canonicalKey k) visited Header.empty
        ⟨(k, v), hv, rfl⟩
    exact ⟨kv1.1, kv1.2, horder.mem_iff.mp hm, hc, by rw [hH]; exact hval⟩
  have hunnamed : ∀ name, (∀ k v, (k, v) ∈ entries → w.canonicalKey k ≠ name) →
      r.Header name = none := by
    intro name hn
    rw [hH, setHeaders_of_not_named w.canonicalKey name visited Header.empty]
    · rfl
    · intro kv hkv
      exact hn kv.1 kv.2 (horder.mem_iff.mp hkv)
  refine ⟨hnamed, ?_, hunnamed, fun hn => hunnamed _ hn⟩
  intro k v hkv huniq
  obtain ⟨k1, v1, hm, hc, hval⟩ := hnamed k v hkv
  have hk : k1 = k := huniq k1 v1 hm hc
  subst hk
  have heq : (k1, v1) = (k1, v) :=
    List.inj_on_of_nodup_map hkeys hm hkv rfl
  rw [hval]
  simp only [Prod.mk.injEq] at heq
  rw [heq.2]

/-- C9, on a map with the two keys `x-test` and `Accept`, visited in the other order. -/
theorem Post_header_loop_witness :
    ∃ c r, (Post echoWorld "http://127.0.0.1:8080/echo" [("Accept", "b"), ("x-test", "a")]
        ping 5).sent = some (c, r) ∧
      r.Header (echoWorld.canonicalKey "x-test") = some ["a"] ∧
      r.Header (echoWorld.canonicalKey "Content-Type") = none := by
  have h := Post_header_loop echoWorld "http://127.0.0.1:8080/echo"
    [("x-test", "a"), ("Accept", "b")] [("Accept", "b"), ("x-test", "a")] ping 5 _ _
    (by decide) (List.Perm.swap _ _ _) rfl
  refine ⟨_, _, rfl, ?_, ?_⟩
  · refine h.2.1 "x-test" "a" (by decide) ?_
    intro k1 v1 hm hc
    simp only [List.mem_cons, Prod.mk.injEq, List.not_mem_nil, or_false] at hm
    rcases hm with ⟨rfl, rfl⟩ | ⟨rfl, rfl⟩
    · rfl
    · exact absurd hc (by decide)
  · refine h.2.2.2 ?_
    intro k v hm
    simp only [List.mem_cons, Prod.mk.injEq, List.not_mem_nil, or_false] at hm
    rcases hm with ⟨rfl, rfl⟩ | ⟨rfl, rfl⟩ <;> decide

set_option maxRecDepth 8000 in
/-- The texts for an elapsed time just above `2^33` seconds. -/
theorem texts_at_8589934592001999999 :
    SprintfF (Seconds 8589934592001999999) = "8589934592.002001" ∧
      FormatInt (Milliseconds 8589934592001999999) = "8589934592001" ∧
      fixed6Micros (Seconds 8589934592001999999) = 8589934592002001 ∧
      Milliseconds 8589934592001999999 = 8589934592001 := by
  decide

/-- Beyond `2^33` seconds the float64 spacing exceeds a microsecond and the bound of C10
amended no longer holds: at 8,589,934,592.001999999 s the texts are `"8589934592.002001"`
and `"8589934592001"`, which differ by `1.001`. -/
theorem elapsed_texts_beyond_range :
    readInt (FormatInt (Milliseconds 8589934592001999999)) = 8589934592001 ∧
    readFixed (SprintfF (Seconds 8589934592001999999)) = 8589934592002001 / 1000000 ∧
    ¬ |readInt (FormatInt (Milliseconds 8589934592001999999)) -
        1000 * readFixed (SprintfF (Seconds 8589934592001999999))| ≤ 1 := by
  obtain ⟨_, _, hmic, hms⟩ := texts_at_8589934592001999999
  have h1 : readInt (FormatInt (Milliseconds 8589934592001999999)) = 8589934592001 := by
    rw [(readInt_FormatInt _).1, hms]
    norm_num
  have h2 : readFixed (SprintfF (Seconds 8589934592001999999)) =
      8589934592002001 / 1000000 := by
    rw [readFixed_SprintfF, hmic]
    norm_num
  refine ⟨h1, h2, ?_⟩
  rw [h1, h2]
  norm_num [abs_le]


end Myutils
